import Mathlib

/-
Shallow embedding of the analysis utilities of the heptrkx-gnn-tracking
repository (src/notebooks/nb_utils.py and src/utils/data_utils.py),
with theorems settling the specification claims about them.

Numeric arrays of predictions, labels and cuts are embedded as lists of
rationals (model outputs fed through sigmoid as lists of reals); numpy and
torch index arrays as lists of naturals or integers; Python dicts as
association lists with unique keys; fallible library calls (file open,
yaml/pickle/csv parse) as parameters returning `Except`.
-/

namespace HepTrkX

/-! ### Generic helpers -/

/-- Apply `f` to the element at index `i` (numpy `a[i] += ...`), leaving the
list unchanged when `i` is out of range. -/
def modifyIdx (f : α → α) : ℕ → List α → List α
  | _, [] => []
  | 0, a :: t => f a :: t
  | n + 1, a :: t => a :: modifyIdx f n t

/-- Python `int(b)` for a boolean `b`. -/
def b2n (b : Prop) [Decidable b] : ℕ := if b then 1 else 0

/-- Python / torch list indexing `d[i]`: a negative index counts from the
back; an index out of range on either side yields no element (IndexError). -/
def pyGet (d : List α) (i : ℤ) : Option α :=
  let j := if i < 0 then i + (d.length : ℤ) else i
  if 0 ≤ j then d.get? j.toNat else none

/-- Python `os.path.join(a, b)` for a non-absolute second component. -/
def joinPath (a b : String) : String := a ++ "/" ++ b

/-! ### Python dict model (for configuration dictionaries)

A Python dict is embedded as an association list with unique keys; a value
is a string, a number, or a nested dict. -/

inductive PyVal where
  | str : String → PyVal
  | num : ℤ → PyVal
  | dict : List (String × PyVal) → PyVal

inductive PyErr where
  | keyError : String → PyErr
  | typeError : String → PyErr
  | libError : String → PyErr
deriving DecidableEq

/-- Dict lookup, `d.get(k)`-style: the value at the key, when present. -/
def dictFind (d : List (String × PyVal)) (k : String) : Option PyVal :=
  (d.find? (fun kv => kv.1 = k)).map (·.2)

/-- Dict subscript `d[k]`: the value, or a KeyError. -/
def dictGet (d : List (String × PyVal)) (k : String) : Except PyErr PyVal :=
  match dictFind d k with
  | some v => .ok v
  | none => .error (.keyError k)

/-- Python `k in d`. -/
def hasKey (d : List (String × PyVal)) (k : String) : Bool :=
  d.any (fun kv => kv.1 = k)

/-- Python `d.pop(k, None)`: the dict without the key (keys are unique in a
Python dict, so removing every pair at the key models removing the one). -/
def dictPop (d : List (String × PyVal)) (k : String) : List (String × PyVal) :=
  d.filter (fun kv => kv.1 ≠ k)

/-- Python `d[k] = v`: replace the value at the key, or append the pair. -/
def dictSet (d : List (String × PyVal)) (k : String) (v : PyVal) :
    List (String × PyVal) :=
  if hasKey d k then d.map (fun kv => if kv.1 = k then (k, v) else kv)
  else d ++ [(k, v)]

/-- Python `os.path.expandvars` demands a string argument. -/
def asString : PyVal → Except PyErr String
  | .str s => .ok s
  | _ => .error (.typeError "expected str")

/-! ### Configuration accessors (nb_utils.py lines 25-29, data_utils.py
lines 24-28; textually identical in the two modules)

    def get_output_dir(config):
        return os.path.expandvars(config['output_dir'])

    def get_input_dir(config):
        return os.path.expandvars(config['data']['input_dir'])

`os.path.expandvars` is an external library call, passed in as `ev`. -/

namespace nb_utils

def get_output_dir (ev : String → String) (config : List (String × PyVal)) :
    Except PyErr String :=
  (dictGet config "output_dir").bind fun v => (asString v).map ev

def get_input_dir (ev : String → String) (config : List (String × PyVal)) :
    Except PyErr String :=
  (dictGet config "data").bind fun v =>
    match v with
    | .dict d => (dictGet d "input_dir").bind fun w => (asString w).map ev
    | _ => .error (.typeError "not subscriptable")

end nb_utils

namespace data_utils

def get_output_dir (ev : String → String) (config : List (String × PyVal)) :
    Except PyErr String :=
  (dictGet config "output_dir").bind fun v => (asString v).map ev

def get_input_dir (ev : String → String) (config : List (String × PyVal)) :
    Except PyErr String :=
  (dictGet config "data").bind fun v =>
    match v with
    | .dict d => (dictGet d "input_dir").bind fun w => (asString w).map ev
    | _ => .error (.typeError "not subscriptable")

end data_utils

/-! ### Artifact loaders (nb_utils.py lines 31-47, data_utils.py lines 30-38)

    def load_config_file(config_file):
        with open(config_file) as f:
            return yaml.load(f, Loader=yaml.FullLoader)

    def load_config_dir(result_dir):
        config_file = os.path.join(result_dir, 'config.pkl')
        with open(config_file, 'rb') as f:
            return pickle.load(f)

    def load_summaries(config):
        summary_file = os.path.join(get_output_dir(config), 'summaries_0.csv')
        return pd.read_csv(summary_file)

The file system (`open`) and the parsers (`yaml.load`, `pickle.load`,
`pd.read_csv` which opens and parses in one call) are external fallible
library calls, passed in as `Except`-returning parameters; the loaders have
no handler of their own, so their composition is a plain monadic bind. -/

def load_config_file (fs : String → Except PyErr φ)
    (yamlLoad : φ → Except PyErr γ) (config_file : String) : Except PyErr γ :=
  (fs config_file).bind yamlLoad

def load_config_dir (fs : String → Except PyErr φ)
    (pickleLoad : φ → Except PyErr γ) (result_dir : String) : Except PyErr γ :=
  (fs (joinPath result_dir "config.pkl")).bind pickleLoad

def load_summaries (ev : String → String) (readCsv : String → Except PyErr δ)
    (config : List (String × PyVal)) : Except PyErr δ :=
  (nb_utils.get_output_dir ev config).bind fun d =>
    readCsv (joinPath d "summaries_0.csv")

/-! ### `load_model` (nb_utils.py lines 49-59)

    def load_model(config, reload_epoch):
        model_config = config['model']
        model_config.pop('loss_func', None)
        model = get_model(**model_config)
        ...checkpoint loading (external, does not touch config)...
        return model

`model_config` aliases the dict object stored under config's 'model' key, so
the pop is visible through `config`; the state-passing embedding returns the
config as the caller observes it after the call, together with the keyword
dict handed to the external `get_model`. -/

def load_model (config : List (String × PyVal)) :
    Except PyErr (List (String × PyVal) × List (String × PyVal)) :=
  (dictGet config "model").bind fun mv =>
    match mv with
    | .dict m =>
      let popped := dictPop m "loss_func"
      .ok (dictSet config "model" (.dict popped), popped)
    | _ => .error (.typeError "pop")

/-! ### Test data loaders (nb_utils.py lines 64-80)

    def get_test_data_loader(config, n_test=16):
        full_dataset = get_dataset(config)
        test_indices = len(full_dataset) - 1 - torch.arange(n_test)
        test_dataset = Subset(full_dataset, test_indices)
        return DataLoader(test_dataset, batch_size=1, collate_fn=Batch.from_data_list)

    def get_dense_test_data_loader(config, n_test=16):   # identical up to collate_fn

The dataset construction is external; the loaders are embedded over the
dataset as a list of samples. A DataLoader with batch_size=1 and no shuffling
yields, in order, one single-sample batch per subset index. -/

def test_indices (N n_test : ℕ) : List ℤ :=
  (List.range n_test).map (fun i : ℕ => (N : ℤ) - 1 - (i : ℤ))

def get_test_data_loader (dataset : List α) (n_test : ℕ) :
    List (List (Option α)) :=
  (test_indices dataset.length n_test).map (fun i => [pyGet dataset i])

def get_dense_test_data_loader (dataset : List α) (n_test : ℕ) :
    List (List (Option α)) :=
  (test_indices dataset.length n_test).map (fun i => [pyGet dataset i])

/-- `get_test_data_loader` at its default argument `n_test = 16`. -/
def get_test_data_loader_default (dataset : List α) :
    List (List (Option α)) :=
  get_test_data_loader dataset 16

/-! ### Inference helpers (nb_utils.py lines 82-96)

    @torch.no_grad()
    def apply_model(model, data_loader):
        preds, targets = [], []
        for batch in data_loader:
            preds.append(torch.sigmoid(model(batch)).squeeze(0))
            targets.append(batch.y.squeeze(0))
        return preds, targets

    @torch.no_grad()
    def apply_dense_model(model, data_loader):
        preds, targets = [], []
        for inputs, target in data_loader:
            preds.append(model(inputs).squeeze(0))
            targets.append(target.squeeze(0))
        return preds, targets

The model is an external function from a batch to an output tensor (a list
of reals); `torch.sigmoid` applies the logistic function elementwise;
`squeeze(0)` only reshapes and is the identity on the embedded values. -/

/-- One batch of the sparse loader: model inputs together with the edge
label tensor `y`. -/
structure SparseBatch (ι : Type) where
  inputs : ι
  y : List ℝ

noncomputable def sigmoid (x : ℝ) : ℝ := 1 / (1 + Real.exp (-x))

noncomputable def apply_model (model : SparseBatch ι → List ℝ)
    (data_loader : List (SparseBatch ι)) : List (List ℝ) × List (List ℝ) :=
  (data_loader.map (fun batch => (model batch).map sigmoid),
   data_loader.map (fun batch => batch.y))

def apply_dense_model (model : ι → List ℝ)
    (data_loader : List (ι × List ℝ)) : List (List ℝ) × List (List ℝ) :=
  (data_loader.map (fun it => model it.1),
   data_loader.map (fun it => it.2))

/-! ### `compute_metrics` (nb_utils.py lines 103-119)

    def compute_metrics(preds, targets, threshold=0.5):
        preds = np.concatenate(preds)
        targets = np.concatenate(targets)
        y_pred, y_true = (preds > threshold), (targets > threshold)
        accuracy = sklearn.metrics.accuracy_score(y_true, y_pred)
        precision = sklearn.metrics.precision_score(y_true, y_pred)
        recall = sklearn.metrics.recall_score(y_true, y_pred)
        ...curve fields (external sklearn curve calls, not modelled)...

The three sklearn decision-threshold scores are embedded by their documented
semantics: accuracy is the mean of elementwise agreement; precision is
TP/(TP+FP) and recall TP/(TP+FN), with value 0 when the denominator is 0
(sklearn's zero_division default; rational division by zero is 0). -/

def accuracy_score (y_true y_pred : List Bool) : ℚ :=
  (((y_true.zip y_pred).countP (fun ab => ab.1 == ab.2)) : ℚ) /
    (y_true.length : ℚ)

def tpCount (y_true y_pred : List Bool) : ℕ :=
  (y_true.zip y_pred).countP (fun ab => ab.2 && ab.1)

def fpCount (y_true y_pred : List Bool) : ℕ :=
  (y_true.zip y_pred).countP (fun ab => ab.2 && !ab.1)

def fnCount (y_true y_pred : List Bool) : ℕ :=
  (y_true.zip y_pred).countP (fun ab => !ab.2 && ab.1)

def precision_score (y_true y_pred : List Bool) : ℚ :=
  (tpCount y_true y_pred : ℚ) /
    ((tpCount y_true y_pred : ℚ) + (fpCount y_true y_pred : ℚ))

def recall_score (y_true y_pred : List Bool) : ℚ :=
  (tpCount y_true y_pred : ℚ) /
    ((tpCount y_true y_pred : ℚ) + (fnCount y_true y_pred : ℚ))

/-- Elementwise strict thresholding `arr > threshold` of numpy. -/
def binarize (threshold : ℚ) (l : List ℚ) : List Bool :=
  l.map (fun x => decide (x > threshold))

/-- The decision-threshold fields of the Metrics namedtuple (the curve
fields come from external sklearn calls and are out of the embedding). -/
structure Metrics where
  accuracy : ℚ
  precision : ℚ
  recall' : ℚ
deriving DecidableEq, Repr

def compute_metrics (preds targets : List (List ℚ)) (threshold : ℚ) :
    Metrics :=
  let p := preds.flatten
  let t := targets.flatten
  let y_pred := binarize threshold p
  let y_true := binarize threshold t
  ⟨accuracy_score y_true y_pred, precision_score y_true y_pred,
   recall_score y_true y_pred⟩

/-- `compute_metrics` at its default threshold argument 0.5. -/
def compute_metrics_default (preds targets : List (List ℚ)) : Metrics :=
  compute_metrics preds targets (1 / 2)

/-- Specification-side count of positions at which the two strictly
binarized arrays agree, stated positionally over the index range. -/
def agreeCount (p t : List ℚ) (threshold : ℚ) : ℕ :=
  (List.range p.length).countP
    (fun i => decide ((p.getD i 0 > threshold) ↔ (t.getD i 0 > threshold)))

/-- Specification-side true-positive count over the index range. -/
def specTP (p t : List ℚ) (threshold : ℚ) : ℕ :=
  (List.range p.length).countP
    (fun i => decide (p.getD i 0 > threshold ∧ t.getD i 0 > threshold))

/-- Specification-side false-positive count over the index range. -/
def specFP (p t : List ℚ) (threshold : ℚ) : ℕ :=
  (List.range p.length).countP
    (fun i => decide (p.getD i 0 > threshold ∧ ¬t.getD i 0 > threshold))

/-- Specification-side false-negative count over the index range. -/
def specFN (p t : List ℚ) (threshold : ℚ) : ℕ :=
  (List.range p.length).countP
    (fun i => decide (¬p.getD i 0 > threshold ∧ t.getD i 0 > threshold))

/-! ### `draw_sample_xy` (nb_utils.py lines 228-257)

    def draw_sample_xy(hits, edges, preds, labels, cut=0.5, figsize=(16, 16)):
        ...scatter of the hits...
        for j in range(labels.shape[0]):
            if preds[j] < cut and labels[j] > cut:
                ax0.plot(..., '--', c='b')
            if preds[j] > cut and labels[j] < cut:
                ax0.plot(..., '-', c='r', alpha=preds[j])
            if preds[j] > cut and labels[j] > cut:
                ax0.plot(..., '-', c='k', alpha=preds[j])

A drawn segment is embedded as its two endpoint node indices plus the style
arguments handed to `ax0.plot`; the loop index runs over the edges with
their prediction and label (the source indexes all three arrays by the same
`j`, which demands equal lengths). -/

/-- One `ax0.plot` call of the edge-drawing loop: endpoints, linestyle,
color, and the alpha keyword when one is passed. -/
structure Seg where
  p1 : ℕ
  p2 : ℕ
  linestyle : String
  color : String
  alpha : Option ℚ
deriving DecidableEq, Repr

/-- The segments drawn for a single edge by the loop body of
`draw_sample_xy`: the three independent conditionals, in source order. -/
def drawEdgeSegs (cut : ℚ) (e : ℕ × ℕ) (pred label : ℚ) : List Seg :=
  (if pred < cut ∧ label > cut then [⟨e.1, e.2, "--", "b", none⟩] else []) ++
  (if pred > cut ∧ label < cut then [⟨e.1, e.2, "-", "r", some pred⟩] else []) ++
  (if pred > cut ∧ label > cut then [⟨e.1, e.2, "-", "k", some pred⟩] else [])

def draw_sample_xy (edges : List (ℕ × ℕ)) (preds labels : List ℚ)
    (cut : ℚ) : List Seg :=
  ((edges.zip (preds.zip labels)).map
    (fun x => drawEdgeSegs cut x.1 x.2.1 x.2.2)).flatten

/-! ### `add_multiplicity` (nb_utils.py lines 493-503)

    def add_multiplicity(hits, edges, preds, cut=0.5):
        mul = np.zeros(len(hits))
        w_mul = np.zeros(len(hits))
        for edge, pred in zip(edges.T, preds) :
            if pred > cut:
                mul[edge[0]] += 1
                mul[edge[1]] += 1
                w_mul[edge[0]] += pred**2
                w_mul[edge[1]] += pred**2
        return mul, w_mul

`hits` only contributes its length; `edges.T` is the list of
(edge[0], edge[1]) endpoint pairs. -/

/-- One iteration of the accumulation loop of `add_multiplicity`. -/
def addMulStep (cut : ℚ) (mw : List ℚ × List ℚ) (ep : (ℕ × ℕ) × ℚ) :
    List ℚ × List ℚ :=
  if ep.2 > cut then
    (modifyIdx (· + 1) ep.1.2 (modifyIdx (· + 1) ep.1.1 mw.1),
     modifyIdx (· + ep.2 ^ 2) ep.1.2 (modifyIdx (· + ep.2 ^ 2) ep.1.1 mw.2))
  else mw

def add_multiplicity (nHits : ℕ) (edges : List (ℕ × ℕ)) (preds : List ℚ)
    (cut : ℚ) : List ℚ × List ℚ :=
  (edges.zip preds).foldl (addMulStep cut)
    (List.replicate nHits 0, List.replicate nHits 0)

/-- Specification-side count: the number of incident endpoint occurrences at
node `n` among edges whose prediction is strictly greater than `cut`. -/
def incidentCount (cut : ℚ) (eps : List ((ℕ × ℕ) × ℚ)) (n : ℕ) : ℕ :=
  (eps.map (fun ep =>
    if ep.2 > cut then
      (if ep.1.1 = n then 1 else 0) + (if ep.1.2 = n then 1 else 0)
    else 0)).sum

/-- Specification-side weight: the sum of `pred ^ 2` over the same incident
endpoint occurrences. -/
def incidentWeight (cut : ℚ) (eps : List ((ℕ × ℕ) × ℚ)) (n : ℕ) : ℚ :=
  (eps.map (fun ep =>
    if ep.2 > cut then
      ((if ep.1.1 = n then 1 else 0) + (if ep.1.2 = n then 1 else 0) : ℚ)
        * ep.2 ^ 2
    else 0)).sum

/-! ### `tf_multiplicity` (nb_utils.py lines 529-546)

    def tf_multiplicity(hits, edges, preds, labels, cut=0.5):
        tf_mul = np.zeros((len(hits),4))
        for edge, pred, label in zip(edges.T, preds, labels) :
            tf_mul[edge[0]][0] += int((pred > cut) and (label > cut))
            tf_mul[edge[1]][0] += int((pred > cut) and (label > cut))
            tf_mul[edge[0]][1] += int((pred > cut) and (label < cut))
            tf_mul[edge[1]][1] += int((pred > cut) and (label < cut))
            tf_mul[edge[0]][2] += int((pred < cut) and (label < cut))
            tf_mul[edge[1]][2] += int((pred < cut) and (label < cut))
            tf_mul[edge[0]][3] += int((pred < cut) and (label > cut))
            tf_mul[edge[0]][3] += int((pred < cut) and (label > cut))
        return tf_mul

Note that the last two writes of the loop body both target row `edge[0]`:
the embedding reproduces this exactly. -/

/-- One row of the per-node table: columns 0..3 are true positive, false
positive, true negative, false negative. -/
structure TF where
  tp : ℕ
  fp : ℕ
  tn : ℕ
  fn : ℕ
deriving DecidableEq, Repr

/-- One iteration of the accumulation loop of `tf_multiplicity`: the eight
in-place writes of the source, in source order. -/
def tfStep (cut : ℚ) (t : List TF) (epl : (ℕ × ℕ) × ℚ × ℚ) : List TF :=
  let e := epl.1
  let pred := epl.2.1
  let label := epl.2.2
  let ctp := b2n (pred > cut ∧ label > cut)
  let cfp := b2n (pred > cut ∧ label < cut)
  let ctn := b2n (pred < cut ∧ label < cut)
  let cfn := b2n (pred < cut ∧ label > cut)
  let t1 := modifyIdx (fun r => ⟨r.tp + ctp, r.fp, r.tn, r.fn⟩) e.1 t
  let t2 := modifyIdx (fun r => ⟨r.tp + ctp, r.fp, r.tn, r.fn⟩) e.2 t1
  let t3 := modifyIdx (fun r => ⟨r.tp, r.fp + cfp, r.tn, r.fn⟩) e.1 t2
  let t4 := modifyIdx (fun r => ⟨r.tp, r.fp + cfp, r.tn, r.fn⟩) e.2 t3
  let t5 := modifyIdx (fun r => ⟨r.tp, r.fp, r.tn + ctn, r.fn⟩) e.1 t4
  let t6 := modifyIdx (fun r => ⟨r.tp, r.fp, r.tn + ctn, r.fn⟩) e.2 t5
  let t7 := modifyIdx (fun r => ⟨r.tp, r.fp, r.tn, r.fn + cfn⟩) e.1 t6
  modifyIdx (fun r => ⟨r.tp, r.fp, r.tn, r.fn + cfn⟩) e.1 t7

def tf_multiplicity (nHits : ℕ) (edges : List (ℕ × ℕ))
    (preds labels : List ℚ) (cut : ℚ) : List TF :=
  (edges.zip (preds.zip labels)).foldl (tfStep cut)
    (List.replicate nHits ⟨0, 0, 0, 0⟩)

/-! ### `get_data_loader` (data_utils.py lines 43-49)

    def get_data_loader(config, n_tasks, task):
        full_dataset = get_dataset(config)
        full_indices = torch.arange(len(full_dataset))
        sub_indices = np.array_split(full_indices,n_tasks)[task]
        sub_dataset = Subset(full_dataset, sub_indices)
        return DataLoader(sub_dataset, batch_size=1, collate_fn=Batch.from_data_list), sub_indices.numpy()

`np.array_split(arange(N), n)` computes the section sizes (the first
`N mod n` sections one element larger) and slices the index range
accordingly. -/

/-- Size of section `i` of numpy's `array_split` of a length-`N` array into
`n` sections. -/
def sectionSize (N n i : ℕ) : ℕ :=
  if i < N % n then N / n + 1 else N / n

def sectionSizes (N n : ℕ) : List ℕ :=
  (List.range n).map (sectionSize N n)

/-- Successive slicing of a list by a list of section sizes (numpy's
`array_split` slicing at the cumulative division points). -/
def splitBySizes : List ℕ → List α → List (List α)
  | [], _ => []
  | s :: ss, l => l.take s :: splitBySizes ss (l.drop s)

def array_split (N n : ℕ) : List (List ℕ) :=
  splitBySizes (sectionSizes N n) (List.range N)

def get_data_loader (dataset : List α) (n_tasks task : ℕ) :
    List (List (Option α)) × List ℕ :=
  let sub := (array_split dataset.length n_tasks).getD task []
  (sub.map (fun i => [dataset.get? i]), sub)

/-! ## Helper lemmas -/

@[simp] theorem length_modifyIdx (f : α → α) (i : ℕ) (l : List α) :
    (modifyIdx f i l).length = l.length := by
  induction l generalizing i with
  | nil => cases i <;> rfl
  | cons a t ih =>
    cases i with
    | zero => rfl
    | succ n => simp [modifyIdx, ih]

theorem getD_modifyIdx (f : α → α) (i n : ℕ) (l : List α) (d : α)
    (hn : n < l.length) :
    (modifyIdx f i l).getD n d =
      if i = n then f (l.getD n d) else l.getD n d := by
  induction l generalizing i n with
  | nil => simp at hn
  | cons a t ih =>
    cases i with
    | zero =>
      cases n with
      | zero => simp [modifyIdx]
      | succ m => simp [modifyIdx]
    | succ k =>
      cases n with
      | zero => simp [modifyIdx]
      | succ m =>
        have hm : m < t.length := by simpa using hn
        simp only [modifyIdx, List.getD_cons_succ, Nat.succ_inj]
        exact ih k m hm

theorem addMulStep_lengths (cut : ℚ) (mw : List ℚ × List ℚ)
    (ep : (ℕ × ℕ) × ℚ) :
    (addMulStep cut mw ep).1.length = mw.1.length ∧
    (addMulStep cut mw ep).2.length = mw.2.length := by
  unfold addMulStep
  split <;> simp

theorem addMulStep_getD (cut : ℚ) (mw : List ℚ × List ℚ)
    (ep : (ℕ × ℕ) × ℚ) (n : ℕ) (h1 : n < mw.1.length) (h2 : n < mw.2.length) :
    (addMulStep cut mw ep).1.getD n 0 =
      mw.1.getD n 0 + (if ep.2 > cut then
        ((if ep.1.1 = n then 1 else 0) + (if ep.1.2 = n then 1 else 0) : ℚ)
        else 0) ∧
    (addMulStep cut mw ep).2.getD n 0 =
      mw.2.getD n 0 + (if ep.2 > cut then
        ((if ep.1.1 = n then 1 else 0) + (if ep.1.2 = n then 1 else 0) : ℚ)
          * ep.2 ^ 2
        else 0) := by
  unfold addMulStep
  by_cases hc : ep.2 > cut
  · have hl1 : n < (modifyIdx (· + 1) ep.1.1 mw.1).length := by simpa using h1
    have hl2 : n < (modifyIdx (· + ep.2 ^ 2) ep.1.1 mw.2).length := by
      simpa using h2
    simp only [hc, if_pos]
    constructor
    · rw [getD_modifyIdx _ _ _ _ _ hl1, getD_modifyIdx _ _ _ _ _ h1]
      by_cases ha : ep.1.1 = n <;> by_cases hb : ep.1.2 = n <;>
        simp [ha, hb] <;> ring
    · rw [getD_modifyIdx _ _ _ _ _ hl2, getD_modifyIdx _ _ _ _ _ h2]
      by_cases ha : ep.1.1 = n <;> by_cases hb : ep.1.2 = n <;>
        simp [ha, hb] <;> ring
  · simp [hc]

theorem addMul_fold_lengths (cut : ℚ) (eps : List ((ℕ × ℕ) × ℚ))
    (mw : List ℚ × List ℚ) :
    (eps.foldl (addMulStep cut) mw).1.length = mw.1.length ∧
    (eps.foldl (addMulStep cut) mw).2.length = mw.2.length := by
  induction eps generalizing mw with
  | nil => exact ⟨rfl, rfl⟩
  | cons ep t ih =>
    have hs := addMulStep_lengths cut mw ep
    have ht := ih (addMulStep cut mw ep)
    exact ⟨ht.1.trans hs.1, ht.2.trans hs.2⟩

theorem addMul_fold_getD (cut : ℚ) (eps : List ((ℕ × ℕ) × ℚ))
    (mw : List ℚ × List ℚ) (n : ℕ)
    (h1 : n < mw.1.length) (h2 : n < mw.2.length) :
    (eps.foldl (addMulStep cut) mw).1.getD n 0 =
      mw.1.getD n 0 + (incidentCount cut eps n : ℚ) ∧
    (eps.foldl (addMulStep cut) mw).2.getD n 0 =
      mw.2.getD n 0 + incidentWeight cut eps n := by
  induction eps generalizing mw with
  | nil => simp [incidentCount, incidentWeight]
  | cons ep t ih =>
    have hs := addMulStep_lengths cut mw ep
    have h1' : n < (addMulStep cut mw ep).1.length := hs.1 ▸ h1
    have h2' : n < (addMulStep cut mw ep).2.length := hs.2 ▸ h2
    have hfold := ih (addMulStep cut mw ep) h1' h2'
    have hstep := addMulStep_getD cut mw ep n h1 h2
    constructor
    · rw [List.foldl_cons, hfold.1, hstep.1]
      simp only [incidentCount, List.map_cons, List.sum_cons]
      push_cast
      split <;> ring
    · rw [List.foldl_cons, hfold.2, hstep.2]
      simp only [incidentWeight, List.map_cons, List.sum_cons]
      split <;> ring

theorem getD_replicate (n k : ℕ) (a : α) : (List.replicate n a).getD k a = a := by
  induction n generalizing k with
  | zero => simp
  | succ m ih => cases k <;> simp [List.replicate, ih]

theorem dictFind_cons_pos (kv : String × PyVal) (t : List (String × PyVal))
    (k : String) (h : kv.1 = k) : dictFind (kv :: t) k = some kv.2 := by
  simp only [dictFind]
  rw [List.find?_cons_of_pos _ (by simpa using h)]
  rfl

theorem dictFind_cons_neg (kv : String × PyVal) (t : List (String × PyVal))
    (k : String) (h : ¬kv.1 = k) : dictFind (kv :: t) k = dictFind t k := by
  simp only [dictFind]
  rw [List.find?_cons_of_neg _ (by simpa using h)]

theorem dictFind_eq_none (d : List (String × PyVal)) (k : String)
    (h : hasKey d k = false) : dictFind d k = none := by
  induction d with
  | nil => rfl
  | cons kv t ih =>
    simp only [hasKey, List.any_cons, Bool.or_eq_false_iff] at h
    have hk : ¬(kv.1 = k) := by simpa using h.1
    rw [dictFind_cons_neg kv t k hk]
    exact ih h.2

theorem hasKey_of_dictFind (d : List (String × PyVal)) (k : String)
    (v : PyVal) (h : dictFind d k = some v) : hasKey d k = true := by
  by_contra hc
  have hf : hasKey d k = false := by simpa using hc
  rw [dictFind_eq_none d k hf] at h
  exact Option.noConfusion h

theorem hasKey_dictPop (d : List (String × PyVal)) (k : String) :
    hasKey (dictPop d k) k = false := by
  induction d with
  | nil => rfl
  | cons kv t ih =>
    simp only [dictPop, List.filter_cons]
    by_cases hk : kv.1 = k
    · rw [if_neg (by simp [hk])]
      simpa [dictPop] using ih
    · rw [if_pos (by simpa using hk)]
      simp only [hasKey, List.any_cons, Bool.or_eq_false_iff]
      exact ⟨by simpa using hk, by simpa [hasKey, dictPop] using ih⟩

theorem dictFind_dictPop_ne (d : List (String × PyVal)) (k k' : String)
    (h : k' ≠ k) : dictFind (dictPop d k) k' = dictFind d k' := by
  induction d with
  | nil => rfl
  | cons kv t ih =>
    by_cases hk : kv.1 = k
    · have hk' : ¬(kv.1 = k') := fun hh => h (hh ▸ hk ▸ rfl)
      simp only [dictPop, List.filter_cons]
      rw [if_neg (by simpa using hk)]
      rw [dictFind_cons_neg kv t k' hk']
      exact ih
    · simp only [dictPop, List.filter_cons]
      rw [if_pos (by simpa using hk)]
      by_cases hk' : kv.1 = k'
      · rw [dictFind_cons_pos kv _ k' hk', dictFind_cons_pos kv t k' hk']
      · rw [dictFind_cons_neg kv _ k' hk', dictFind_cons_neg kv t k' hk']
        exact ih

theorem dictFind_map_replace (d : List (String × PyVal)) (k : String)
    (v : PyVal) (h : hasKey d k = true) :
    dictFind (d.map (fun kv => if kv.1 = k then (k, v) else kv)) k
      = some v := by
  induction d with
  | nil => simp [hasKey] at h
  | cons kv t ih =>
    by_cases hk : kv.1 = k
    · simp only [List.map_cons, if_pos hk]
      rw [dictFind_cons_pos ⟨k, v⟩ _ k rfl]
    · simp only [List.map_cons, if_neg hk]
      rw [dictFind_cons_neg kv _ k hk]
      have ht : hasKey t k = true := by
        simpa [hasKey, List.any_cons, hk] using h
      exact ih ht

theorem dictFind_dictSet_self (d : List (String × PyVal)) (k : String)
    (v : PyVal) (h : hasKey d k = true) :
    dictFind (dictSet d k v) k = some v := by
  rw [dictSet, if_pos h]
  exact dictFind_map_replace d k v h

theorem dictFind_map_replace_ne (d : List (String × PyVal)) (k k' : String)
    (v : PyVal) (h : k' ≠ k) :
    dictFind (d.map (fun kv => if kv.1 = k then (k, v) else kv)) k'
      = dictFind d k' := by
  induction d with
  | nil => rfl
  | cons kv t ih =>
    by_cases hk : kv.1 = k
    · have hk' : ¬(kv.1 = k') := fun hh => h (hh ▸ hk ▸ rfl)
      have hkk' : ¬((k, v).1 = k') := fun hh => h hh.symm
      simp only [List.map_cons, if_pos hk]
      rw [dictFind_cons_neg ⟨k, v⟩ _ k' hkk', dictFind_cons_neg kv t k' hk']
      exact ih
    · simp only [List.map_cons, if_neg hk]
      by_cases hk' : kv.1 = k'
      · rw [dictFind_cons_pos kv _ k' hk', dictFind_cons_pos kv t k' hk']
      · rw [dictFind_cons_neg kv _ k' hk', dictFind_cons_neg kv t k' hk']
        exact ih

theorem dictFind_append_single_ne (d : List (String × PyVal)) (k k' : String)
    (v : PyVal) (h : k' ≠ k) :
    dictFind (d ++ [(k, v)]) k' = dictFind d k' := by
  induction d with
  | nil =>
    simp only [List.nil_append]
    rw [dictFind_cons_neg ⟨k, v⟩ [] k' (fun hh => h hh.symm)]
  | cons kv t ih =>
    by_cases hk' : kv.1 = k'
    · simp only [List.cons_append]
      rw [dictFind_cons_pos kv _ k' hk', dictFind_cons_pos kv t k' hk']
    · simp only [List.cons_append]
      rw [dictFind_cons_neg kv _ k' hk', dictFind_cons_neg kv t k' hk']
      exact ih

theorem dictFind_dictSet_ne (d : List (String × PyVal)) (k k' : String)
    (v : PyVal) (h : k' ≠ k) :
    dictFind (dictSet d k v) k' = dictFind d k' := by
  rw [dictSet]
  split
  · exact dictFind_map_replace_ne d k k' v h
  · exact dictFind_append_single_ne d k k' v h

/-! ## Claim theorems -/

/-- C1 (code bug): `tf_multiplicity` does not increment the false-negative
column at both endpoints of a false-negative edge: both false-negative
writes of the loop body target row `edge[0]` (nb_utils.py lines 543-544),
so on the single false-negative edge (0, 1) with pred 0, label 2, cut 1,
node 0 receives a false-negative count of 2 and node 1 a count of 0,
instead of 1 and 1 as claimed. The other three columns follow the claimed
symmetric per-endpoint pattern, which marks the last write's `edge[0]` as a
copy-paste slip for `edge[1]`. -/
theorem tf_multiplicity_fn_both_writes_edge0 :
    tf_multiplicity 2 [(0, 1)] [0] [2] 1
      = [⟨0, 0, 0, 2⟩, ⟨0, 0, 0, 0⟩] := by decide

/-- C2: for a valid input, `add_multiplicity` returns two arrays of length
`len(hits)`; at every node `n`, `mul` holds the number of incident endpoint
occurrences of edges with prediction strictly greater than the cut, and
`w_mul` the sum of `pred ^ 2` over those same occurrences; edges with
prediction at most the cut contribute to neither. -/
theorem add_multiplicity_spec (nHits : ℕ) (edges : List (ℕ × ℕ))
    (preds : List ℚ) (cut : ℚ) (n : ℕ) (hn : n < nHits)
    (hE : ∀ e ∈ edges, e.1 < nHits ∧ e.2 < nHits) :
    (add_multiplicity nHits edges preds cut).1.length = nHits ∧
    (add_multiplicity nHits edges preds cut).2.length = nHits ∧
    (add_multiplicity nHits edges preds cut).1.getD n 0
      = (incidentCount cut (edges.zip preds) n : ℚ) ∧
    (add_multiplicity nHits edges preds cut).2.getD n 0
      = incidentWeight cut (edges.zip preds) n := by
  have hlen := addMul_fold_lengths cut (edges.zip preds)
    (List.replicate nHits 0, List.replicate nHits 0)
  have h1 : n < (List.replicate nHits (0 : ℚ)).length := by simpa using hn
  have hg := addMul_fold_getD cut (edges.zip preds)
    (List.replicate nHits 0, List.replicate nHits 0) n h1 h1
  have hz : (List.replicate nHits (0 : ℚ)).getD n 0 = 0 := getD_replicate _ _ _
  refine ⟨?_, ?_, ?_, ?_⟩
  · simpa [add_multiplicity] using hlen.1
  · simpa [add_multiplicity] using hlen.2
  · have := hg.1
    rw [hz, zero_add] at this
    simpa [add_multiplicity] using this
  · have := hg.2
    rw [hz, zero_add] at this
    simpa [add_multiplicity] using this

theorem add_multiplicity_spec_witness :
    (add_multiplicity 2 [(0, 1), (1, 1)] [3 / 4, 1 / 4] (1 / 2)).1.getD 1 0
      = (incidentCount (1 / 2)
          ([((0 : ℕ), (1 : ℕ)), (1, 1)].zip [(3 / 4 : ℚ), 1 / 4]) 1 : ℚ) :=
  (add_multiplicity_spec 2 [(0, 1), (1, 1)] [3 / 4, 1 / 4] (1 / 2) 1
    (by decide) (by decide)).2.2.1

/-- C3: with the key present, `get_output_dir` returns exactly
`os.path.expandvars` of `config['output_dir']` and `get_input_dir` exactly
`os.path.expandvars` of `config['data']['input_dir']`; with the key missing,
the lookup raises a KeyError; and the definitions of the two modules are
identical. -/
theorem get_dir_accessors_spec (ev : String → String)
    (c d miss1 miss2 : List (String × PyVal)) (v w : String)
    (h1 : dictFind c "output_dir" = some (.str v))
    (h2 : dictFind c "data" = some (.dict d))
    (h3 : dictFind d "input_dir" = some (.str w))
    (h4 : hasKey miss1 "output_dir" = false)
    (h5 : hasKey miss2 "data" = false) :
    nb_utils.get_output_dir ev c = .ok (ev v) ∧
    nb_utils.get_input_dir ev c = .ok (ev w) ∧
    nb_utils.get_output_dir ev miss1 = .error (.keyError "output_dir") ∧
    nb_utils.get_input_dir ev miss2 = .error (.keyError "data") ∧
    data_utils.get_output_dir = nb_utils.get_output_dir ∧
    data_utils.get_input_dir = nb_utils.get_input_dir := by
  refine ⟨?_, ?_, ?_, ?_, rfl, rfl⟩
  · simp [nb_utils.get_output_dir, dictGet, h1, asString, Except.bind,
      Except.map]
  · simp [nb_utils.get_input_dir, dictGet, h2, h3, asString, Except.bind,
      Except.map]
  · simp [nb_utils.get_output_dir, dictGet, dictFind_eq_none miss1 _ h4,
      Except.bind]
  · simp [nb_utils.get_input_dir, dictGet, dictFind_eq_none miss2 _ h5,
      Except.bind]

theorem get_dir_accessors_spec_witness :
    nb_utils.get_output_dir id
        [("output_dir", .str "$SCRATCH/out"),
         ("data", .dict [("input_dir", .str "/data/in")])]
      = .ok (id "$SCRATCH/out") :=
  (get_dir_accessors_spec id
    [("output_dir", PyVal.str "$SCRATCH/out"),
     ("data", PyVal.dict [("input_dir", PyVal.str "/data/in")])]
    [("input_dir", PyVal.str "/data/in")] [] [] "$SCRATCH/out" "/data/in"
    rfl rfl rfl rfl rfl).1

/-- C5 counterexample: on the empty configuration, `load_summaries` raises
the KeyError of the `config['output_dir']` lookup although the file
open-and-parse call (here a `read_csv` that always succeeds) never raises:
the loaders' errors are not exactly the errors of file open or parse
calls. -/
theorem load_summaries_error_without_file_error :
    load_summaries id (fun _ => (Except.ok (0 : ℕ) : Except PyErr ℕ)) []
      = Except.error (PyErr.keyError "output_dir") := rfl

/-- C5 (amended): no loader catches an exception or substitutes a default:
`load_config_file` and `load_config_dir` fail exactly when the underlying
open or parse fails, with exactly the underlying error; `load_summaries`
fails exactly when either the `config['output_dir']` lookup fails (with
that KeyError, before any file call) or the `read_csv` open-and-parse
fails, again with exactly the underlying error. -/
theorem loaders_propagate_errors (fs : String → Except PyErr φ)
    (yamlLoad pickleLoad : φ → Except PyErr γ)
    (ev : String → String) (readCsv : String → Except PyErr δ)
    (config_file result_dir : String) (config : List (String × PyVal)) :
    (∀ e, load_config_file fs yamlLoad config_file = .error e ↔
       fs config_file = .error e ∨
       ∃ f, fs config_file = .ok f ∧ yamlLoad f = .error e) ∧
    (∀ c, load_config_file fs yamlLoad config_file = .ok c ↔
       ∃ f, fs config_file = .ok f ∧ yamlLoad f = .ok c) ∧
    (∀ e, load_config_dir fs pickleLoad result_dir = .error e ↔
       fs (joinPath result_dir "config.pkl") = .error e ∨
       ∃ f, fs (joinPath result_dir "config.pkl") = .ok f ∧
         pickleLoad f = .error e) ∧
    (∀ c, load_config_dir fs pickleLoad result_dir = .ok c ↔
       ∃ f, fs (joinPath result_dir "config.pkl") = .ok f ∧
         pickleLoad f = .ok c) ∧
    (∀ e, load_summaries ev readCsv config = .error e ↔
       nb_utils.get_output_dir ev config = .error e ∨
       ∃ dir, nb_utils.get_output_dir ev config = .ok dir ∧
         readCsv (joinPath dir "summaries_0.csv") = .error e) ∧
    (∀ df, load_summaries ev readCsv config = .ok df ↔
       ∃ dir, nb_utils.get_output_dir ev config = .ok dir ∧
         readCsv (joinPath dir "summaries_0.csv") = .ok df) := by
  refine ⟨?_, ?_, ?_, ?_, ?_, ?_⟩ <;> intro x
  · cases h : fs config_file <;> simp [load_config_file, h, Except.bind]
  · cases h : fs config_file <;> simp [load_config_file, h, Except.bind]
  · cases h : fs (joinPath result_dir "config.pkl") <;>
      simp [load_config_dir, h, Except.bind]
  · cases h : fs (joinPath result_dir "config.pkl") <;>
      simp [load_config_dir, h, Except.bind]
  · cases h : nb_utils.get_output_dir ev config <;>
      simp [load_summaries, h, Except.bind]
  · cases h : nb_utils.get_output_dir ev config <;>
      simp [load_summaries, h, Except.bind]

/-- C9: when `config['model']` contains the key `'loss_func'`, `load_model`
leaves the caller's config with that key removed from the model sub-dict
(via `dict.pop` before constructing the model), while every other key of
the config and of the model sub-dict is unchanged. -/
theorem load_model_pops_loss_func (config m : List (String × PyVal))
    (h1 : dictFind config "model" = some (.dict m))
    (h2 : hasKey m "loss_func" = true) :
    load_model config
        = .ok (dictSet config "model" (.dict (dictPop m "loss_func")),
               dictPop m "loss_func") ∧
    dictFind (dictSet config "model" (.dict (dictPop m "loss_func"))) "model"
        = some (.dict (dictPop m "loss_func")) ∧
    hasKey (dictPop m "loss_func") "loss_func" = false ∧
    (∀ k, k ≠ "loss_func" →
      dictFind (dictPop m "loss_func") k = dictFind m k) ∧
    (∀ k, k ≠ "model" →
      dictFind (dictSet config "model" (.dict (dictPop m "loss_func"))) k
        = dictFind config k) := by
  refine ⟨?_, ?_, hasKey_dictPop m _, ?_, ?_⟩
  · simp [load_model, dictGet, h1, Except.bind]
  · exact dictFind_dictSet_self config "model" _
      (hasKey_of_dictFind config "model" _ h1)
  · exact fun k hk => dictFind_dictPop_ne m _ k hk
  · exact fun k hk => dictFind_dictSet_ne config "model" k _ hk

theorem load_model_pops_loss_func_witness :
    load_model
        [("model", .dict [("name", .str "gnn_sparse"),
                          ("loss_func", .str "binary_cross_entropy")]),
         ("output_dir", .str "/out")]
      = .ok ([("model", .dict [("name", .str "gnn_sparse")]),
              ("output_dir", .str "/out")],
             [("name", .str "gnn_sparse")]) :=
  (load_model_pops_loss_func
    [("model", PyVal.dict [("name", PyVal.str "gnn_sparse"),
                           ("loss_func", PyVal.str "binary_cross_entropy")]),
     ("output_dir", PyVal.str "/out")]
    [("name", PyVal.str "gnn_sparse"),
     ("loss_func", PyVal.str "binary_cross_entropy")]
    rfl rfl).1

theorem sigmoid_pos (x : ℝ) : 0 < sigmoid x := by
  unfold sigmoid
  positivity

theorem sigmoid_lt_one (x : ℝ) : sigmoid x < 1 := by
  unfold sigmoid
  rw [div_lt_one (by positivity)]
  linarith [Real.exp_pos (-x)]

/-- C6: `apply_model` returns one (prediction, target) pair per batch of the
loader, in iteration order: the i-th prediction is the elementwise sigmoid
of the model output on the i-th batch (hence every predicted value lies
strictly between 0 and 1) and the i-th target is that batch's `y`;
`apply_dense_model` does the same without the sigmoid. -/
theorem apply_model_one_pair_per_batch {ι κ : Type}
    (model : SparseBatch ι → List ℝ) (data_loader : List (SparseBatch ι))
    (dmodel : κ → List ℝ) (ddata_loader : List (κ × List ℝ)) :
    (apply_model model data_loader).1.length = data_loader.length ∧
    (apply_model model data_loader).2.length = data_loader.length ∧
    (∀ i, (apply_model model data_loader).1.get? i
        = (data_loader.get? i).map (fun batch => (model batch).map sigmoid)) ∧
    (∀ i, (apply_model model data_loader).2.get? i
        = (data_loader.get? i).map (fun batch => batch.y)) ∧
    (∀ l ∈ (apply_model model data_loader).1, ∀ x ∈ l, 0 < x ∧ x < 1) ∧
    (apply_dense_model dmodel ddata_loader).1.length = ddata_loader.length ∧
    (apply_dense_model dmodel ddata_loader).2.length = ddata_loader.length ∧
    (∀ i, (apply_dense_model dmodel ddata_loader).1.get? i
        = (ddata_loader.get? i).map (fun it => dmodel it.1)) ∧
    (∀ i, (apply_dense_model dmodel ddata_loader).2.get? i
        = (ddata_loader.get? i).map (fun it => it.2)) := by
  refine ⟨by simp [apply_model], by simp [apply_model], ?_, ?_, ?_,
    by simp [apply_dense_model], by simp [apply_dense_model], ?_, ?_⟩
  · intro i
    simp [apply_model, List.get?_map]
  · intro i
    simp [apply_model, List.get?_map]
  · intro l hl x hx
    simp only [apply_model, List.mem_map] at hl
    obtain ⟨batch, _, rfl⟩ := hl
    simp only [List.mem_map] at hx
    obtain ⟨y, _, rfl⟩ := hx
    exact ⟨sigmoid_pos y, sigmoid_lt_one y⟩
  · intro i
    simp [apply_dense_model, List.get?_map]
  · intro i
    simp [apply_dense_model, List.get?_map]

/-- C8: `draw_sample_xy` draws a segment for an edge exactly when the
(pred, label) pair falls, under strict comparison with the cut, into one of
the three classes: false negative (dashed blue, no alpha), false positive
(solid red, alpha pred), true positive (solid black, alpha pred); at most
one class holds, and true negatives and exact ties with the cut draw
nothing. -/
theorem draw_sample_xy_classes (cut pred label : ℚ) (e : ℕ × ℕ)
    (edges : List (ℕ × ℕ)) (preds labels : List ℚ) :
    draw_sample_xy edges preds labels cut =
      ((edges.zip (preds.zip labels)).map
        (fun x => drawEdgeSegs cut x.1 x.2.1 x.2.2)).flatten ∧
    (drawEdgeSegs cut e pred label ≠ [] ↔
      (pred < cut ∧ label > cut) ∨ (pred > cut ∧ label < cut) ∨
      (pred > cut ∧ label > cut)) ∧
    (drawEdgeSegs cut e pred label).length ≤ 1 ∧
    ((pred < cut ∧ label > cut) →
      drawEdgeSegs cut e pred label = [⟨e.1, e.2, "--", "b", none⟩]) ∧
    ((pred > cut ∧ label < cut) →
      drawEdgeSegs cut e pred label = [⟨e.1, e.2, "-", "r", some pred⟩]) ∧
    ((pred > cut ∧ label > cut) →
      drawEdgeSegs cut e pred label = [⟨e.1, e.2, "-", "k", some pred⟩]) ∧
    ((pred < cut ∧ label < cut) → drawEdgeSegs cut e pred label = []) ∧
    (pred = cut → drawEdgeSegs cut e pred label = []) ∧
    (label = cut → drawEdgeSegs cut e pred label = []) := by
  refine ⟨rfl, ?_⟩
  rcases lt_trichotomy pred cut with hp | hp | hp <;>
    rcases lt_trichotomy label cut with hl | hl | hl
  · simp [drawEdgeSegs, hp, hl, lt_asymm hp, lt_asymm hl, ne_of_lt hp,
      ne_of_lt hl]
  · simp [drawEdgeSegs, hp, hl, lt_asymm hp, ne_of_lt hp]
  · simp [drawEdgeSegs, hp, hl, lt_asymm hp, lt_asymm hl, ne_of_lt hp,
      ne_of_gt hl]
  · simp [drawEdgeSegs, hp, hl, lt_asymm hl, ne_of_lt hl]
  · simp [drawEdgeSegs, hp, hl]
  · simp [drawEdgeSegs, hp, hl, lt_asymm hl, ne_of_gt hl]
  · simp [drawEdgeSegs, hp, hl, lt_asymm hp, lt_asymm hl, ne_of_gt hp,
      ne_of_lt hl]
  · simp [drawEdgeSegs, hp, hl, lt_asymm hp, ne_of_gt hp]
  · simp [drawEdgeSegs, hp, hl, lt_asymm hp, lt_asymm hl, ne_of_gt hp,
      ne_of_gt hl]

theorem pyGet_natCast (d : List α) (k : ℕ) : pyGet d (k : ℤ) = d.get? k := by
  unfold pyGet
  rw [if_neg (by omega : ¬((k : ℤ) < 0))]
  rw [if_pos (by omega : (0 : ℤ) ≤ (k : ℤ))]
  rw [Int.toNat_natCast]

theorem test_indices_get? (N n j : ℕ) (hj : j < n) (hn : n ≤ N) :
    (test_indices N n).get? j = some ((N - 1 - j : ℕ) : ℤ) := by
  have hcast : ((N - 1 - j : ℕ) : ℤ) = (N : ℤ) - 1 - (j : ℤ) := by omega
  rw [test_indices, List.get?_map, List.get?_range hj, Option.map_some',
    hcast]

/-- C7: when the dataset has at least `n_test` samples, the test data loader
yields exactly `n_test` batches of batch size 1, the j-th batch holding the
sample at index `N - 1 - j`: the last `n_test` samples taken from the back
in reverse order, all indices lying in `[N - n_test, N - 1]`; the dense
variant behaves identically. -/
theorem get_test_data_loader_spec (dataset : List α) (n_test : ℕ)
    (h : n_test ≤ dataset.length) :
    (get_test_data_loader dataset n_test).length = n_test ∧
    (∀ j, j < n_test →
      (get_test_data_loader dataset n_test).get? j
        = some [dataset.get? (dataset.length - 1 - j)]) ∧
    (∀ j, j < n_test →
      (test_indices dataset.length n_test).get? j
        = some ((dataset.length - 1 - j : ℕ) : ℤ)) ∧
    (∀ j, j < n_test → dataset.length - 1 - j < dataset.length ∧
      dataset.length - n_test ≤ dataset.length - 1 - j) ∧
    get_dense_test_data_loader dataset n_test
      = get_test_data_loader dataset n_test ∧
    get_test_data_loader_default dataset = get_test_data_loader dataset 16 := by
  refine ⟨?_, ?_, ?_, ?_, rfl, rfl⟩
  · rw [get_test_data_loader, List.length_map, test_indices,
      List.length_map, List.length_range]
  · intro j hj
    have hidx := test_indices_get? dataset.length n_test j hj h
    simp only [get_test_data_loader, List.get?_map, hidx, Option.map_some']
    rw [pyGet_natCast]
  · intro j hj
    exact test_indices_get? dataset.length n_test j hj h
  · intro j hj
    omega

theorem get_test_data_loader_spec_witness :
    (get_test_data_loader [(10 : ℕ), 20, 30] 2).length = 2 :=
  (get_test_data_loader_spec [(10 : ℕ), 20, 30] 2 (by decide)).1

theorem countP_zip_range (a b : List γ) (f : γ → γ → Bool) (d : γ)
    (h : b.length = a.length) :
    (a.zip b).countP (fun x => f x.1 x.2)
      = (List.range a.length).countP (fun i => f (a.getD i d) (b.getD i d)) := by
  induction a generalizing b with
  | nil => simp
  | cons x xs ih =>
    cases b with
    | nil => simp at h
    | cons y ys =>
      have h' : ys.length = xs.length := by simpa using h
      rw [List.zip_cons_cons, List.countP_cons, ih ys h']
      rw [List.length_cons, List.range_succ_eq_map, List.countP_cons,
        List.countP_map]
      have hc : ((fun i => f ((x :: xs).getD i d) ((y :: ys).getD i d))
            ∘ Nat.succ)
          = (fun i => f (xs.getD i d) (ys.getD i d)) := by
        funext i
        simp [Function.comp, List.getD_cons_succ]
      rw [hc]
      try simp only [List.getD_cons_zero]
      try omega

/-- C4: `compute_metrics` concatenates the prediction and target lists,
binarizes both with the same strict comparison against the threshold
(default 0.5), and its accuracy is the fraction of positions at which the
two binarized arrays agree; its precision and recall are the
TP/(TP+FP) and TP/(TP+FN) ratios of the same strictly-thresholded pair. -/
theorem compute_metrics_spec (preds targets : List (List ℚ)) (threshold : ℚ)
    (hlen : targets.flatten.length = preds.flatten.length)
    (hne : preds.flatten ≠ []) :
    (compute_metrics preds targets threshold).accuracy
      = (agreeCount preds.flatten targets.flatten threshold : ℚ)
        / (preds.flatten.length : ℚ) ∧
    (compute_metrics preds targets threshold).precision
      = (specTP preds.flatten targets.flatten threshold : ℚ)
        / ((specTP preds.flatten targets.flatten threshold : ℚ)
           + (specFP preds.flatten targets.flatten threshold : ℚ)) ∧
    (compute_metrics preds targets threshold).recall'
      = (specTP preds.flatten targets.flatten threshold : ℚ)
        / ((specTP preds.flatten targets.flatten threshold : ℚ)
           + (specFN preds.flatten targets.flatten threshold : ℚ)) ∧
    compute_metrics_default preds targets
      = compute_metrics preds targets (1 / 2) := by
  set p := preds.flatten with hp
  set t := targets.flatten with ht
  have hzip : ∀ g : Bool → Bool → Bool,
      ((binarize threshold t).zip (binarize threshold p)).countP
          (fun ab => g ab.1 ab.2)
        = (List.range t.length).countP
            (fun i => g (decide (t.getD i 0 > threshold))
              (decide (p.getD i 0 > threshold))) := by
    intro g
    rw [binarize, binarize, List.zip_map, List.countP_map]
    have hc : ((fun ab : Bool × Bool => g ab.1 ab.2)
          ∘ Prod.map (fun x : ℚ => decide (x > threshold))
            (fun x : ℚ => decide (x > threshold)))
        = fun x : ℚ × ℚ =>
            g (decide (x.1 > threshold)) (decide (x.2 > threshold)) := rfl
    rw [hc, countP_zip_range t p (fun u v =>
      g (decide (u > threshold)) (decide (v > threshold))) 0 hlen.symm]
  refine ⟨?_, ?_, ?_, rfl⟩
  · rw [compute_metrics]
    simp only [accuracy_score]
    rw [hzip (fun u v => u == v)]
    rw [binarize, List.length_map, hlen]
    congr 1
    rw [agreeCount]
    norm_cast
    apply List.countP_congr
    intro i _
    by_cases hpi : p.getD i 0 > threshold <;>
      by_cases hti : t.getD i 0 > threshold <;> simp [hpi, hti] <;> tauto
  · rw [compute_metrics]
    simp only [precision_score, tpCount, fpCount]
    rw [hzip (fun u v => v && u), hzip (fun u v => v && !u)]
    have h1 : (List.range t.length).countP
        (fun i => decide (p.getD i 0 > threshold)
          && decide (t.getD i 0 > threshold)) = specTP p t threshold := by
      rw [specTP, hlen]
      apply List.countP_congr
      intro i _
      by_cases hpi : p.getD i 0 > threshold <;>
        by_cases hti : t.getD i 0 > threshold <;> simp [hpi, hti] <;> tauto
    have h2 : (List.range t.length).countP
        (fun i => decide (p.getD i 0 > threshold)
          && !decide (t.getD i 0 > threshold)) = specFP p t threshold := by
      rw [specFP, hlen]
      apply List.countP_congr
      intro i _
      by_cases hpi : p.getD i 0 > threshold <;>
        by_cases hti : t.getD i 0 > threshold <;> simp [hpi, hti] <;> tauto
    rw [h1, h2]
  · rw [compute_metrics]
    simp only [recall_score, tpCount, fnCount]
    rw [hzip (fun u v => v && u), hzip (fun u v => !v && u)]
    have h1 : (List.range t.length).countP
        (fun i => decide (p.getD i 0 > threshold)
          && decide (t.getD i 0 > threshold)) = specTP p t threshold := by
      rw [specTP, hlen]
      apply List.countP_congr
      intro i _
      by_cases hpi : p.getD i 0 > threshold <;>
        by_cases hti : t.getD i 0 > threshold <;> simp [hpi, hti] <;> tauto
    have h2 : (List.range t.length).countP
        (fun i => !decide (p.getD i 0 > threshold)
          && decide (t.getD i 0 > threshold)) = specFN p t threshold := by
      rw [specFN, hlen]
      apply List.countP_congr
      intro i _
      by_cases hpi : p.getD i 0 > threshold <;>
        by_cases hti : t.getD i 0 > threshold <;> simp [hpi, hti] <;> tauto
    rw [h1, h2]

theorem compute_metrics_spec_witness :
    (compute_metrics [[1]] [[0]] (1 / 2)).accuracy
      = (agreeCount [[(1 : ℚ)]].flatten [[(0 : ℚ)]].flatten (1 / 2) : ℚ)
        / (([[(1 : ℚ)]].flatten).length : ℚ) :=
  (compute_metrics_spec [[1]] [[0]] (1 / 2) rfl
    (List.cons_ne_nil 1 [])).1

theorem range'_take (a m s : ℕ) :
    (List.range' a m).take s = List.range' a (min s m) := by
  induction m generalizing a s with
  | zero => simp
  | succ m ih =>
    cases s with
    | zero => simp
    | succ s =>
      rw [List.range'_succ a m 1, List.take_succ_cons, ih]
      have hmin : min (s + 1) (m + 1) = min s m + 1 := by omega
      rw [hmin, List.range'_succ a (min s m) 1]

theorem range'_drop (a m s : ℕ) :
    (List.range' a m).drop s = List.range' (a + s) (m - s) := by
  induction m generalizing a s with
  | zero => simp
  | succ m ih =>
    cases s with
    | zero => simp
    | succ s =>
      rw [List.range'_succ a m 1, List.drop_succ_cons, ih]
      have e1 : a + 1 + s = a + (s + 1) := by omega
      have e2 : m - s = m + 1 - (s + 1) := by omega
      rw [e1, e2]

theorem length_splitBySizes (ss : List ℕ) (l : List α) :
    (splitBySizes ss l).length = ss.length := by
  induction ss generalizing l with
  | nil => rfl
  | cons s t ih => simp [splitBySizes, ih]

theorem flatten_splitBySizes (ss : List ℕ) (l : List α) :
    (splitBySizes ss l).flatten = l.take ss.sum := by
  induction ss generalizing l with
  | nil => simp [splitBySizes]
  | cons s t ih =>
    simp only [splitBySizes, List.flatten_cons, ih, List.sum_cons]
    rw [List.take_add]

theorem map_length_splitBySizes (ss : List ℕ) (l : List α)
    (h : ss.sum ≤ l.length) : (splitBySizes ss l).map List.length = ss := by
  induction ss generalizing l with
  | nil => rfl
  | cons s t ih =>
    simp only [List.sum_cons] at h
    have h1 : s ≤ l.length := by omega
    have h2 : t.sum ≤ (l.drop s).length := by
      rw [List.length_drop]
      omega
    simp only [splitBySizes, List.map_cons, List.length_take,
      min_eq_left h1, ih (l.drop s) h2]

theorem splitBySizes_range' (ss : List ℕ) :
    ∀ (a m : ℕ), ∀ part ∈ splitBySizes ss (List.range' a m),
      ∃ b k, part = List.range' b k := by
  induction ss with
  | nil =>
    intro a m part hp
    simp [splitBySizes] at hp
  | cons s t ih =>
    intro a m part hp
    simp only [splitBySizes, List.mem_cons] at hp
    rcases hp with hp | hp
    · exact ⟨a, min s m, by rw [hp, range'_take]⟩
    · rw [range'_drop] at hp
      exact ih (a + s) (m - s) part hp

theorem sum_range_if (q r m : ℕ) :
    ((List.range m).map (fun i => if i < r then q + 1 else q)).sum
      = m * q + min m r := by
  induction m with
  | zero => simp
  | succ m ih =>
    rw [List.range_succ, List.map_append, List.sum_append, ih, Nat.succ_mul]
    simp only [List.map_cons, List.map_nil, List.sum_cons, List.sum_nil]
    by_cases hm : m < r
    · rw [if_pos hm]
      have hmin : min (m + 1) r = min m r + 1 := by omega
      rw [hmin]
      generalize m * q = A
      omega
    · rw [if_neg hm]
      have hmin : min (m + 1) r = min m r := by omega
      rw [hmin]
      generalize m * q = A
      omega

theorem sectionSizes_sum (N n : ℕ) (h : 1 ≤ n) :
    (sectionSizes N n).sum = N := by
  have hr : N % n < n := Nat.mod_lt _ h
  have he : (List.range n).map (sectionSize N n)
      = (List.range n).map (fun i => if i < N % n then N / n + 1 else N / n) :=
    rfl
  rw [sectionSizes, he, sum_range_if, min_eq_right (le_of_lt hr)]
  exact Nat.div_add_mod N n

theorem getD_eq_of_get? (l : List α) (i : ℕ) (d x : α)
    (h : l.get? i = some x) : l.getD i d = x := by
  rw [List.getD_eq_getElem?_getD, ← List.get?_eq_getElem?, h]
  rfl

theorem array_split_get? (N n i : ℕ) (h1 : 1 ≤ n) (hi : i < n) :
    ∃ part, (array_split N n).get? i = some part ∧
      part.length = sectionSize N n i := by
  have hsum := sectionSizes_sum N n h1
  have hlen : (array_split N n).length = n := by
    rw [array_split, length_splitBySizes, sectionSizes, List.length_map,
      List.length_range]
  have hmap : (array_split N n).map List.length = sectionSizes N n := by
    rw [array_split]
    exact map_length_splitBySizes _ _ (by rw [hsum, List.length_range])
  have hil : i < (array_split N n).length := by omega
  refine ⟨(array_split N n).get ⟨i, hil⟩, List.get?_eq_get hil, ?_⟩
  have hthis := congrArg (fun l => l.get? i) hmap
  simp only [List.get?_map, List.get?_eq_get hil, Option.map_some'] at hthis
  have h2 : (sectionSizes N n).get? i = some (sectionSize N n i) := by
    rw [sectionSizes, List.get?_map, List.get?_range hi, Option.map_some']
  rw [h2] at hthis
  exact Option.some.inj hthis

/-- C10: for every dataset length and at least one task, the per-task index
arrays of `get_data_loader` form an ordered partition of the index range:
their concatenation in task order is exactly `0..N-1` (hence they are
pairwise disjoint), each part is a contiguous range, any two parts differ
in size by at most one, and the returned loader for a task yields one
single-sample batch per index of its part, in order. -/
theorem get_data_loader_partition (N n_tasks : ℕ) (h : 1 ≤ n_tasks) :
    (array_split N n_tasks).length = n_tasks ∧
    (array_split N n_tasks).flatten = List.range N ∧
    (array_split N n_tasks).Pairwise List.Disjoint ∧
    (∀ part ∈ array_split N n_tasks, ∃ s, part = List.range' s part.length) ∧
    (∀ i j, i < n_tasks → j < n_tasks →
      ((array_split N n_tasks).getD i []).length
        ≤ ((array_split N n_tasks).getD j []).length + 1) ∧
    (∀ (α : Type) (dataset : List α) (task : ℕ),
      (get_data_loader dataset n_tasks task).2
          = (array_split dataset.length n_tasks).getD task [] ∧
      (get_data_loader dataset n_tasks task).1
          = ((get_data_loader dataset n_tasks task).2).map
              (fun i => [dataset.get? i])) := by
  have hsum := sectionSizes_sum N n_tasks h
  have hflat : (array_split N n_tasks).flatten = List.range N := by
    rw [array_split, flatten_splitBySizes, hsum]
    have htl := List.take_length (List.range N)
    simpa using htl
  refine ⟨?_, hflat, ?_, ?_, ?_, ?_⟩
  · rw [array_split, length_splitBySizes, sectionSizes, List.length_map,
      List.length_range]
  · have hnd : (array_split N n_tasks).flatten.Nodup := by
      rw [hflat]
      exact List.nodup_range N
    exact (List.nodup_flatten.mp hnd).2
  · intro part hp
    rw [array_split] at hp
    rw [List.range_eq_range'] at hp
    obtain ⟨b, k, hbk⟩ :=
      splitBySizes_range' (sectionSizes N n_tasks) 0 N part hp
    refine ⟨b, ?_⟩
    subst hbk
    simp
  · intro i j hi hj
    obtain ⟨pa, hpa, hla⟩ := array_split_get? N n_tasks i h hi
    obtain ⟨pb, hpb, hlb⟩ := array_split_get? N n_tasks j h hj
    rw [getD_eq_of_get? _ _ _ _ hpa, getD_eq_of_get? _ _ _ _ hpb, hla, hlb]
    unfold sectionSize
    split <;> split <;> omega
  · intro α dataset task
    exact ⟨rfl, rfl⟩

theorem get_data_loader_partition_witness :
    (array_split 5 2).length = 2 :=
  (get_data_loader_partition 5 2 (by decide)).1

end HepTrkX
